import Mathlib

/-!
Shallow embedding of the tic-tac-toe game logic of the repository
(src/src/components/TicTacToe.tsx and src/src/App.tsx).

The board in the source is a JavaScript array `(string | null)[]`.
JavaScript array reads out of range yield `undefined`, and writes past the
end grow the array (padding with holes, which behave like `undefined`
after the spread copy `[...board]` the code always makes before writing).
Both `null` and `undefined` are falsy, but `cell !== null` is `true` for
`undefined`; the embedding therefore keeps three cell states.
-/

/-- A player's mark: the source uses the strings 'X' and 'O'. -/
inductive Mark : Type
  | X : Mark
  | O : Mark
deriving DecidableEq, Repr

/-- A cell of the JavaScript board array: `null` (the initial value),
`undefined` (out-of-range reads and padding of past-the-end writes), or a
placed mark. -/
inductive Cell : Type
  | nullC : Cell
  | undefC : Cell
  | markC : Mark → Cell
deriving DecidableEq, Repr

/-- JavaScript array read `board[i]`: out-of-range reads give `undefined`. -/
def jsGet (board : List Cell) (i : Nat) : Cell :=
  (board.get? i).getD Cell.undefC

/-- JavaScript array write `board[i] = v` (on a fresh copy, as the source
always does): in-range writes replace the cell, past-the-end writes grow
the array, padding the gap with holes, which we model as `undefined`. -/
def jsSet (board : List Cell) (i : Nat) (v : Cell) : List Cell :=
  if i < board.length then board.set i v
  else board ++ List.replicate (i - board.length) Cell.undefC ++ [v]

/-- JavaScript truthiness of a cell: `null` and `undefined` are falsy,
the strings 'X' and 'O' are truthy. -/
def truthy : Cell → Bool
  | Cell.nullC => false
  | Cell.undefC => false
  | Cell.markC _ => true

/-- The test `cell !== null` used by `newBoard.every(cell => cell !== null)`:
`undefined !== null` is `true` under strict equality. -/
def neNull : Cell → Bool
  | Cell.nullC => false
  | Cell.undefC => true
  | Cell.markC _ => true

/-- The score record of `GameState`: `{ player, albert, draws }`. -/
structure Score : Type where
  player : Nat
  albert : Nat
  draws : Nat
deriving DecidableEq, Repr

/-- The `GameState` interface of src/src/components/TicTacToe.tsx. -/
structure GameState : Type where
  board : List Cell
  currentPlayer : Mark
  winner : Option Mark
  gameOver : Bool
  score : Score
deriving DecidableEq, Repr

namespace TicTacToe

/-- The `lines` array of `checkWinner` in TicTacToe.tsx: 3 rows, 3 columns,
2 diagonals, in that order. -/
def lines : List (Nat × Nat × Nat) :=
  [(0, 1, 2), (3, 4, 5), (6, 7, 8),
   (0, 3, 6), (1, 4, 7), (2, 5, 8),
   (0, 4, 8), (2, 4, 6)]

/-- The `for` loop of `checkWinner`: return the mark of the first line whose
three cells hold the same truthy value (`board[a] && board[a] === board[b]
&& board[a] === board[c]`). -/
def checkWinnerLoop (board : List Cell) : List (Nat × Nat × Nat) → Option Mark
  | [] => none
  | (a, b, c) :: rest =>
    match jsGet board a with
    | Cell.markC m =>
      if jsGet board b = Cell.markC m && jsGet board c = Cell.markC m then some m
      else checkWinnerLoop board rest
    | _ => checkWinnerLoop board rest

/-- `checkWinner` of TicTacToe.tsx. -/
def checkWinner (board : List Cell) : Option Mark :=
  checkWinnerLoop board lines

/-- The initial `useState` value of the component: empty board, X starts,
no winner, game not over, all counters zero. -/
def initialGameState : GameState :=
  { board := List.replicate 9 Cell.nullC
    currentPlayer := Mark.X
    winner := none
    gameOver := false
    score := { player := 0, albert := 0, draws := 0 } }

/-- `makeMove` of TicTacToe.tsx as a pure state transition (the `setGameState`
/ `onMove` / `onGameEnd` callbacks are modelled at the system layer).
The guard `if (gameState.board[index] || gameState.gameOver) return` makes
the move a no-op when the cell holds a truthy value or the game is over;
note it does not test the index range. -/
def makeMove (gs : GameState) (index : Nat) : GameState :=
  if truthy (jsGet gs.board index) || gs.gameOver then gs
  else
    let newBoard := jsSet gs.board index (Cell.markC gs.currentPlayer)
    let winner := checkWinner newBoard
    let isDraw := !winner.isSome && newBoard.all neNull
    let gameOver := winner.isSome || isDraw
    let newScore :=
      if gameOver then
        match winner with
        | some Mark.X => { gs.score with player := gs.score.player + 1 }
        | some Mark.O => { gs.score with albert := gs.score.albert + 1 }
        | none => { gs.score with draws := gs.score.draws + 1 }
      else gs.score
    { board := newBoard
      currentPlayer := if gs.currentPlayer = Mark.X then Mark.O else Mark.X
      winner := winner
      gameOver := gameOver
      score := newScore }

/-- `resetGame` of TicTacToe.tsx: fresh empty board, X to move, no winner,
not over, score carried over. -/
def resetGame (gs : GameState) : GameState :=
  { board := List.replicate 9 Cell.nullC
    currentPlayer := Mark.X
    winner := none
    gameOver := false
    score := gs.score }

/-- `resetScore` of TicTacToe.tsx: zero the three counters, keep the rest. -/
def resetScore (gs : GameState) : GameState :=
  { gs with score := { player := 0, albert := 0, draws := 0 } }

end TicTacToe

namespace App

/-- The `lines` array of `checkWinner` in App.tsx (textually the same as the
one in TicTacToe.tsx). -/
def lines : List (Nat × Nat × Nat) :=
  [(0, 1, 2), (3, 4, 5), (6, 7, 8),
   (0, 3, 6), (1, 4, 7), (2, 5, 8),
   (0, 4, 8), (2, 4, 6)]

/-- The `for` loop of `checkWinner` in App.tsx. -/
def checkWinnerLoop (board : List Cell) : List (Nat × Nat × Nat) → Option Mark
  | [] => none
  | (a, b, c) :: rest =>
    match jsGet board a with
    | Cell.markC m =>
      if jsGet board b = Cell.markC m && jsGet board c = Cell.markC m then some m
      else checkWinnerLoop board rest
    | _ => checkWinnerLoop board rest

/-- `checkWinner` of App.tsx. -/
def checkWinner (board : List Cell) : Option Mark :=
  checkWinnerLoop board lines

/-- The indices 0..8 scanned by the `for (let i = 0; i < 9; i++)` loops of
`getAlbertMove`. -/
def range9 : List Nat := [0, 1, 2, 3, 4, 5, 6, 7, 8]

/-- The `corners` array of `getAlbertMove`. -/
def corners : List Nat := [0, 2, 6, 8]

/-- The first two loops of `getAlbertMove`: for each index in order, if the
cell is falsy, place mark `m` on a copy and return the index when
`checkWinner(testBoard) === m`. -/
def winLoop (board : List Cell) (m : Mark) : List Nat → Option Nat
  | [] => none
  | i :: rest =>
    if truthy (jsGet board i) = false then
      if checkWinner (jsSet board i (Cell.markC m)) = some m then some i
      else winLoop board m rest
    else winLoop board m rest

/-- The corner and any-spot loops of `getAlbertMove`: first index in the
list whose cell is falsy. -/
def emptyLoop (board : List Cell) : List Nat → Option Nat
  | [] => none
  | i :: rest =>
    if truthy (jsGet board i) = false then some i else emptyLoop board rest

/-- `getAlbertMove` of App.tsx (nested inside `handleGameMove`): win for 'O',
else block 'X', else center 4, else first empty corner, else first empty
cell, else -1. -/
def getAlbertMove (board : List Cell) : Int :=
  match winLoop board Mark.O range9 with
  | some i => (i : Int)
  | none =>
  match winLoop board Mark.X range9 with
  | some i => (i : Int)
  | none =>
  if truthy (jsGet board 4) = false then 4
  else
  match emptyLoop board corners with
  | some c => (c : Int)
  | none =>
  match emptyLoop board range9 with
  | some i => (i : Int)
  | none => -1

end App

/-! Reference Opponent Policy written from the specification's words
(section 4.3), to be compared with `App.getAlbertMove`. The specification's
rules 1 and 2 say "placing the mark at some empty cell produces a completed
line for that mark, play the lowest such index". -/

/-- A line is completed for mark `m` when all three of its cells hold `m`. -/
def lineAll (board : List Cell) (m : Mark) (l : Nat × Nat × Nat) : Bool :=
  jsGet board l.1 = Cell.markC m &&
  jsGet board l.2.1 = Cell.markC m &&
  jsGet board l.2.2 = Cell.markC m

/-- The eight winning lines of the specification (3 rows, 3 columns,
2 diagonals). -/
def specLines : List (Nat × Nat × Nat) :=
  [(0, 1, 2), (3, 4, 5), (6, 7, 8),
   (0, 3, 6), (1, 4, 7), (2, 5, 8),
   (0, 4, 8), (2, 4, 6)]

/-- Reference scan for the specification's rules 1 and 2: the lowest index
in the list whose cell is empty and where placing `m` produces a completed
line for `m`. -/
def specScan (board : List Cell) (m : Mark) : List Nat → Option Nat
  | [] => none
  | i :: rest =>
    if truthy (jsGet board i) = false &&
       specLines.any (lineAll (jsSet board i (Cell.markC m)) m) then some i
    else specScan board m rest

/-- Reference scan for the specification's rules 4 and 5: the lowest index
in the list whose cell is empty. -/
def specFirstEmpty (board : List Cell) : List Nat → Option Nat
  | [] => none
  | i :: rest =>
    if truthy (jsGet board i) = false then some i else specFirstEmpty board rest

/-- `chooseMove(board, opponentMark, playerMark)` written from the
specification's priority order: win now, block, center, corner, any,
else "no legal move" (-1). -/
def specChooseMove (board : List Cell) (opponentMark playerMark : Mark) : Int :=
  match specScan board opponentMark App.range9 with
  | some i => (i : Int)
  | none =>
  match specScan board playerMark App.range9 with
  | some i => (i : Int)
  | none =>
  if truthy (jsGet board 4) = false then 4
  else
  match specFirstEmpty board App.corners with
  | some c => (c : Int)
  | none =>
  match specFirstEmpty board App.range9 with
  | some i => (i : Int)
  | none => -1

/-! Helper lemmas shared by several claims. -/

/-- The two winner loops (TicTacToe.tsx and App.tsx) agree on every board
and line list. -/
theorem checkWinnerLoop_ext (board : List Cell) :
    ∀ ls, TicTacToe.checkWinnerLoop board ls = App.checkWinnerLoop board ls
  | [] => rfl
  | (a, b, c) :: rest => by
    unfold TicTacToe.checkWinnerLoop App.checkWinnerLoop
    cases h : jsGet board a <;>
      simp [h, checkWinnerLoop_ext board rest]

/-- One step of the winner loop coincides with testing `lineAll` for each of
the two marks. -/
theorem checkWinnerLoop_head (board : List Cell) (a b c : Nat) :
    (match jsGet board a with
      | Cell.markC m =>
        if jsGet board b = Cell.markC m && jsGet board c = Cell.markC m then some m
        else (none : Option Mark)
      | _ => none) =
    (if lineAll board Mark.X (a, b, c) then some Mark.X
     else if lineAll board Mark.O (a, b, c) then some Mark.O else none) := by
  cases h : jsGet board a with
  | markC m => cases m <;> simp [lineAll, h]
  | nullC => simp [lineAll, h]
  | undefC => simp [lineAll, h]

/-- The winner loop is the first line completed for either mark, scanning in
order. -/
theorem checkWinnerLoop_eq_findSome (board : List Cell) :
    ∀ ls, App.checkWinnerLoop board ls =
      ls.findSome? (fun l =>
        if lineAll board Mark.X l then some Mark.X
        else if lineAll board Mark.O l then some Mark.O else none)
  | [] => rfl
  | (a, b, c) :: rest => by
    rw [List.findSome?_cons]
    have hh := checkWinnerLoop_head board a b c
    unfold App.checkWinnerLoop
    cases h : jsGet board a with
    | markC m =>
      rw [h] at hh
      by_cases hg : jsGet board b = Cell.markC m && jsGet board c = Cell.markC m
      · simp only [hg, if_true] at hh ⊢
        rw [← hh]
      · simp only [hg] at hh ⊢
        rw [← hh]
        simp [checkWinnerLoop_eq_findSome board rest]
    | nullC =>
      rw [h] at hh
      rw [← hh]
      simp [checkWinnerLoop_eq_findSome board rest]
    | undefC =>
      rw [h] at hh
      rw [← hh]
      simp [checkWinnerLoop_eq_findSome board rest]

/-! Concrete states and boards used by counterexamples and witnesses. -/

/-- A mid-game state: X has marks at 0 and 1, O at 3 and 4, X to move, game
not over. Playing cell 2 completes the top row for X and ends the game. -/
def c1CexState : GameState :=
  { board := [Cell.markC Mark.X, Cell.markC Mark.X, Cell.nullC,
              Cell.markC Mark.O, Cell.markC Mark.O, Cell.nullC,
              Cell.nullC, Cell.nullC, Cell.nullC]
    currentPlayer := Mark.X
    winner := none
    gameOver := false
    score := { player := 0, albert := 0, draws := 0 } }

/-- A state whose cell 0 is already occupied (by X). -/
def c2WitState : GameState :=
  { board := [Cell.markC Mark.X, Cell.nullC, Cell.nullC,
              Cell.nullC, Cell.nullC, Cell.nullC,
              Cell.nullC, Cell.nullC, Cell.nullC]
    currentPlayer := Mark.O
    winner := none
    gameOver := false
    score := { player := 0, albert := 0, draws := 0 } }

/-- Board with a completed X line in the top row while O threatens the
bottom row: X at 0,1,2 and O at 6,7. -/
def c3CexBoard : List Cell :=
  [Cell.markC Mark.X, Cell.markC Mark.X, Cell.markC Mark.X,
   Cell.nullC, Cell.nullC, Cell.nullC,
   Cell.markC Mark.O, Cell.markC Mark.O, Cell.nullC]

/-- The board `[O,O,_,X,X,_,_,_,_]` of the specification's scenario. -/
def c4Board : List Cell :=
  [Cell.markC Mark.O, Cell.markC Mark.O, Cell.nullC,
   Cell.markC Mark.X, Cell.markC Mark.X, Cell.nullC,
   Cell.nullC, Cell.nullC, Cell.nullC]

/-- C1 counterexample: on `c1CexState` the move at cell 2 satisfies the
preconditions and ends the game (X wins the top row), yet the resulting
`currentPlayer` is O — it IS flipped away from the moving player's mark X,
contradicting the claim that it is not flipped on the game-ending move. -/
theorem c1_flip_counterexample :
    c1CexState.gameOver = false ∧
    truthy (jsGet c1CexState.board 2) = false ∧
    (TicTacToe.makeMove c1CexState 2).gameOver = true ∧
    c1CexState.currentPlayer = Mark.X ∧
    (TicTacToe.makeMove c1CexState 2).currentPlayer = Mark.O := by
  decide

/-- C1 (amended): `currentPlayer` is unchanged on a no-op move and flipped
to the other mark on every effective move, including the move that ends the
game. -/
theorem c1_currentPlayer_flip (gs : GameState) (i : Nat) :
    (TicTacToe.makeMove gs i).currentPlayer =
      if truthy (jsGet gs.board i) || gs.gameOver then gs.currentPlayer
      else if gs.currentPlayer = Mark.X then Mark.O else Mark.X := by
  unfold TicTacToe.makeMove
  split
  · simp_all
  · simp_all

/-- C2 counterexample: `makeMove` does not guard the index range. At the
initial state, the out-of-range index 9 is not a no-op: the mark is appended
past the 9-cell board and `currentPlayer` flips to O. -/
theorem c2_noop_counterexample :
    TicTacToe.initialGameState.gameOver = false ∧
    TicTacToe.makeMove TicTacToe.initialGameState 9 ≠ TicTacToe.initialGameState ∧
    (TicTacToe.makeMove TicTacToe.initialGameState 9).currentPlayer = Mark.O ∧
    (TicTacToe.makeMove TicTacToe.initialGameState 9).board.length = 10 := by
  decide

/-- C2 (amended): the move is a silent no-op — the state is returned
unchanged — when the game is over or the addressed cell already holds a
mark; the out-of-range case is not guarded. -/
theorem c2_noop (gs : GameState) (i : Nat)
    (h : gs.gameOver = true ∨ truthy (jsGet gs.board i) = true) :
    TicTacToe.makeMove gs i = gs := by
  unfold TicTacToe.makeMove
  rcases h with h | h <;> simp [h]

/-- C2 witness: at `c2WitState` the cell-0 move hits an occupied cell and is
a no-op. -/
theorem c2_noop_witness :
    truthy (jsGet c2WitState.board 0) = true ∧
    TicTacToe.makeMove c2WitState 0 = c2WitState :=
  ⟨by decide, c2_noop c2WitState 0 (Or.inr (by decide))⟩

/-- C4 counterexample: on `[O,O,_,X,X,_,_,_,_]` the claim's side conditions
fail — an immediate win for O (cell 2 completes the top row) and a block
against X (cell 5) are both available, so it is not the case that the policy
picks a corner for lack of win/block with the center occupied. -/
theorem c4_corner_counterexample :
    ¬ (App.getAlbertMove c4Board = 2 ∧
       App.emptyLoop c4Board App.corners = some 2 ∧
       specScan c4Board Mark.O App.range9 = none ∧
       specScan c4Board Mark.X App.range9 = none ∧
       truthy (jsGet c4Board 4) = true) := by
  decide

/-- C4 (amended): on `[O,O,_,X,X,_,_,_,_]` the policy plays cell 2, selected
by the win-now rule (O at 2 completes the top row); cell 2 also happens to
be the lowest-index empty corner, and the center is indeed occupied. -/
theorem c4_corner_amended :
    App.getAlbertMove c4Board = 2 ∧
    specScan c4Board Mark.O App.range9 = some 2 ∧
    App.emptyLoop c4Board App.corners = some 2 ∧
    truthy (jsGet c4Board 4) = true := by
  decide

/-- C7: `resetGame` empties the board, hands the turn to X, clears the
winner and game-over flags, and keeps the score; `resetScore` zeroes the
three counters and keeps board, turn, winner, and game-over flag. -/
theorem c7_reset_frame (gs : GameState) :
    (TicTacToe.resetGame gs).board = List.replicate 9 Cell.nullC ∧
    (TicTacToe.resetGame gs).currentPlayer = Mark.X ∧
    (TicTacToe.resetGame gs).winner = none ∧
    (TicTacToe.resetGame gs).gameOver = false ∧
    (TicTacToe.resetGame gs).score = gs.score ∧
    (TicTacToe.resetScore gs).score = { player := 0, albert := 0, draws := 0 } ∧
    (TicTacToe.resetScore gs).board = gs.board ∧
    (TicTacToe.resetScore gs).currentPlayer = gs.currentPlayer ∧
    (TicTacToe.resetScore gs).winner = gs.winner ∧
    (TicTacToe.resetScore gs).gameOver = gs.gameOver :=
  ⟨rfl, rfl, rfl, rfl, rfl, rfl, rfl, rfl, rfl, rfl⟩

/-- C8: both resets are idempotent. -/
theorem c8_reset_idempotent (gs : GameState) :
    TicTacToe.resetGame (TicTacToe.resetGame gs) = TicTacToe.resetGame gs ∧
    TicTacToe.resetScore (TicTacToe.resetScore gs) = TicTacToe.resetScore gs :=
  ⟨rfl, rfl⟩

/-- C10: the two duplicated winner evaluators agree on every board, and both
return the mark of the first line (in the fixed row/column/diagonal order)
whose three cells hold the same mark, or none. -/
theorem c10_checkWinner_extensional (board : List Cell) :
    TicTacToe.checkWinner board = App.checkWinner board ∧
    TicTacToe.checkWinner board =
      specLines.findSome? (fun l =>
        if lineAll board Mark.X l then some Mark.X
        else if lineAll board Mark.O l then some Mark.O else none) := by
  have h1 : TicTacToe.checkWinner board = App.checkWinner board := by
    unfold TicTacToe.checkWinner App.checkWinner
    rw [checkWinnerLoop_ext]
    rfl
  refine ⟨h1, ?_⟩
  rw [h1]
  unfold App.checkWinner
  rw [checkWinnerLoop_eq_findSome]
  rfl

/-- C6: across any `makeMove` transition the three counters never decrease;
the score is unchanged unless the transition turns `gameOver` from false to
true, in which case exactly one counter is incremented by 1 — the player
counter when the winner is X, the albert counter when it is O, the draws
counter otherwise; a board reset keeps the score (only `resetScore` lowers
it). -/
theorem c6_score_update (gs : GameState) (i : Nat) :
    gs.score.player ≤ (TicTacToe.makeMove gs i).score.player ∧
    gs.score.albert ≤ (TicTacToe.makeMove gs i).score.albert ∧
    gs.score.draws ≤ (TicTacToe.makeMove gs i).score.draws ∧
    (¬ (gs.gameOver = false ∧ (TicTacToe.makeMove gs i).gameOver = true) →
      (TicTacToe.makeMove gs i).score = gs.score) ∧
    (gs.gameOver = false ∧ (TicTacToe.makeMove gs i).gameOver = true →
      ((TicTacToe.makeMove gs i).winner = some Mark.X ∧
        (TicTacToe.makeMove gs i).score =
          { gs.score with player := gs.score.player + 1 }) ∨
      ((TicTacToe.makeMove gs i).winner = some Mark.O ∧
        (TicTacToe.makeMove gs i).score =
          { gs.score with albert := gs.score.albert + 1 }) ∨
      ((TicTacToe.makeMove gs i).winner = none ∧
        (TicTacToe.makeMove gs i).score =
          { gs.score with draws := gs.score.draws + 1 })) ∧
    (TicTacToe.resetGame gs).score = gs.score := by
  simp only [TicTacToe.makeMove, TicTacToe.resetGame]
  split
  · simp_all
  · rename_i h
    cases hw : TicTacToe.checkWinner (jsSet gs.board i (Cell.markC gs.currentPlayer)) with
    | none =>
      cases hall : (jsSet gs.board i (Cell.markC gs.currentPlayer)).all neNull <;>
        simp_all
    | some m =>
      cases m <;> simp_all

/-- States reachable from the component's initial state through the three
transitions the component exposes: a move, a board reset, a score reset. -/
inductive Reachable : GameState → Prop
  | init : Reachable TicTacToe.initialGameState
  | move (s : GameState) (i : Nat) : Reachable s → Reachable (TicTacToe.makeMove s i)
  | reset (s : GameState) : Reachable s → Reachable (TicTacToe.resetGame s)
  | rescore (s : GameState) : Reachable s → Reachable (TicTacToe.resetScore s)

/-- Exactly one of three alternatives holds. -/
def exactlyOneOfThree (p q r : Prop) : Prop :=
  (p ∧ ¬q ∧ ¬r) ∨ (¬p ∧ q ∧ ¬r) ∨ (¬p ∧ ¬q ∧ r)

/-- The winner/full trichotomy is exclusive and exhaustive for any pair of
booleans. -/
theorem winner_full_trichotomy (w f : Bool) :
    exactlyOneOfThree (w = false ∧ f = false) (w = true) (f = true ∧ w = false) := by
  cases w <;> cases f <;> simp [exactlyOneOfThree]

/-- C5: in every reachable state, `gameOver` holds exactly when a winner is
recorded or the board has no cell left that compares unequal to a placed
mark, and exactly one of {no winner and board not full, winner present,
board full with no winner} holds. -/
theorem c5_gameOver_invariant (s : GameState) (h : Reachable s) :
    (s.gameOver = true ↔
      (s.winner.isSome = true ∨ s.board.all neNull = true)) ∧
    exactlyOneOfThree
      (s.winner.isSome = false ∧ s.board.all neNull = false)
      (s.winner.isSome = true)
      (s.board.all neNull = true ∧ s.winner.isSome = false) := by
  refine ⟨?_, winner_full_trichotomy _ _⟩
  induction h with
  | init => decide
  | move s' i hs ih =>
    simp only [TicTacToe.makeMove]
    split
    · exact ih
    · cases hw : TicTacToe.checkWinner (jsSet s'.board i (Cell.markC s'.currentPlayer)) <;>
        cases hall : (jsSet s'.board i (Cell.markC s'.currentPlayer)).all neNull <;>
          simp [hw, hall]
  | reset s' hs ih => simp [TicTacToe.resetGame, neNull]
  | rescore s' hs ih => simpa [TicTacToe.resetScore] using ih

/-- C5 witness: the initial state is reachable and satisfies the invariant. -/
theorem c5_gameOver_invariant_witness :
    Reachable TicTacToe.initialGameState ∧
    ((TicTacToe.initialGameState.gameOver = true ↔
      (TicTacToe.initialGameState.winner.isSome = true ∨
       TicTacToe.initialGameState.board.all neNull = true)) ∧
    exactlyOneOfThree
      (TicTacToe.initialGameState.winner.isSome = false ∧
       TicTacToe.initialGameState.board.all neNull = false)
      (TicTacToe.initialGameState.winner.isSome = true)
      (TicTacToe.initialGameState.board.all neNull = true ∧
       TicTacToe.initialGameState.winner.isSome = false)) :=
  ⟨Reachable.init, c5_gameOver_invariant TicTacToe.initialGameState Reachable.init⟩

/-! Helper lemmas for the Opponent Policy claims. -/

/-- Reading back an in-range write. -/
theorem jsGet_jsSet_self (board : List Cell) (i : Nat) (v : Cell)
    (h : i < board.length) : jsGet (jsSet board i v) i = v := by
  unfold jsGet jsSet
  rw [if_pos h, List.get?_set_eq_of_lt _ h]
  rfl

/-- An in-range write does not change the other cells. -/
theorem jsGet_jsSet_ne (board : List Cell) (i j : Nat) (v : Cell)
    (h : i < board.length) (hij : i ≠ j) :
    jsGet (jsSet board i v) j = jsGet board j := by
  unfold jsGet jsSet
  rw [if_pos h, List.get?_set_ne _ _ hij]

/-- If the winner loop returns a mark, some line of its list is completed
for that mark. -/
theorem checkWinnerLoop_some_lineAll (board : List Cell) (m : Mark) :
    ∀ ls, App.checkWinnerLoop board ls = some m →
      ls.any (lineAll board m) = true
  | [] => by simp [App.checkWinnerLoop]
  | (a, b, c) :: rest => by
    intro h
    unfold App.checkWinnerLoop at h
    split at h
    · rename_i m0 heq
      split at h
      · rename_i hbc
        have hm : m0 = m := by simpa using h
        subst hm
        simp only [Bool.and_eq_true, decide_eq_true_eq] at hbc
        simp [lineAll, heq, hbc.1, hbc.2]
      · simp [checkWinnerLoop_some_lineAll board m rest h]
    · simp [checkWinnerLoop_some_lineAll board m rest h]

/-- If the winner loop returns none, no line of its list is completed for
any mark. -/
theorem checkWinnerLoop_none_lineAll (board : List Cell) :
    ∀ ls, App.checkWinnerLoop board ls = none →
      ∀ l ∈ ls, ∀ m, lineAll board m l = false
  | [] => by simp
  | (a, b, c) :: rest => by
    intro h l hl m
    have hrest : App.checkWinnerLoop board rest = none ∧
        lineAll board m (a, b, c) = false := by
      unfold App.checkWinnerLoop at h
      split at h
      · rename_i m0 heq
        split at h
        · exact absurd h (by simp)
        · rename_i hbc
          refine ⟨h, ?_⟩
          by_cases hm : m = m0
          · subst hm
            simp only [lineAll, heq]
            simpa using hbc
          · simp only [lineAll, heq]
            simp only [Bool.and_eq_false_iff, decide_eq_false_iff_not]
            exact Or.inl (Or.inl
              (fun hc => hm (by injection hc with hmm; exact hmm.symm)))
      · rename_i hne
        refine ⟨h, ?_⟩
        simp only [lineAll]
        simp only [Bool.and_eq_false_iff, decide_eq_false_iff_not]
        exact Or.inl (Or.inl (fun hc => hne m hc))
    rcases List.mem_cons.mp hl with hl | hl
    · subst hl
      exact hrest.2
    · exact checkWinnerLoop_none_lineAll board rest hrest.1 l hl m

/-- If some line of the list is completed for `m` and every completed line
of the list is completed for `m` only, the winner loop returns `m`. -/
theorem checkWinnerLoop_some_of (board : List Cell) (m : Mark) :
    ∀ ls, ls.any (lineAll board m) = true →
      (∀ l ∈ ls, ∀ m2, lineAll board m2 l = true → m2 = m) →
      App.checkWinnerLoop board ls = some m
  | [] => by simp
  | (a, b, c) :: rest => by
    intro hany huniq
    unfold App.checkWinnerLoop
    split
    · rename_i m0 heq
      split
      · rename_i hbc
        have hline : lineAll board m0 (a, b, c) = true := by
          simp only [Bool.and_eq_true, decide_eq_true_eq] at hbc
          simp [lineAll, heq, hbc.1, hbc.2]
        rw [huniq (a, b, c) (List.mem_cons_self _ _) m0 hline]
      · rename_i hbc
        have hbc2 : (decide (jsGet board b = Cell.markC m0) &&
            decide (jsGet board c = Cell.markC m0)) = false := by
          simpa using hbc
        have hhead : lineAll board m (a, b, c) = false := by
          by_cases hm : m = m0
          · subst hm
            rcases Bool.and_eq_false_iff.mp hbc2 with hf | hf <;>
              simp [lineAll, heq, hf]
          · simp only [lineAll, heq]
            simp only [Bool.and_eq_false_iff, decide_eq_false_iff_not]
            exact Or.inl (Or.inl
              (fun hc => hm (by injection hc with hmm; exact hmm.symm)))
        refine checkWinnerLoop_some_of board m rest ?_
          (fun l hl => huniq l (List.mem_cons_of_mem _ hl))
        simpa [hhead] using hany
    · rename_i hne
      have hhead : lineAll board m (a, b, c) = false := by
        simp only [lineAll]
        simp only [Bool.and_eq_false_iff, decide_eq_false_iff_not]
        exact Or.inl (Or.inl (fun hc => hne m hc))
      refine checkWinnerLoop_some_of board m rest ?_
        (fun l hl => huniq l (List.mem_cons_of_mem _ hl))
      simpa [hhead] using hany

/-- A line completed after an in-range write of mark `m` was either already
completed on the old board or is completed for `m` itself. -/
theorem lineAll_of_set (board : List Cell) (i : Nat) (m m2 : Mark)
    (l : Nat × Nat × Nat) (hi : i < board.length)
    (h : lineAll (jsSet board i (Cell.markC m)) m2 l = true) :
    m2 = m ∨ lineAll board m2 l = true := by
  obtain ⟨a, b, c⟩ := l
  simp only [lineAll, Bool.and_eq_true, decide_eq_true_eq] at h
  obtain ⟨⟨ha, hb⟩, hc⟩ := h
  by_cases hia : i = a
  · subst hia
    rw [jsGet_jsSet_self board i _ hi] at ha
    exact Or.inl (by injection ha with hmm; exact hmm.symm)
  · rw [jsGet_jsSet_ne board i a _ hi hia] at ha
    by_cases hib : i = b
    · subst hib
      rw [jsGet_jsSet_self board i _ hi] at hb
      exact Or.inl (by injection hb with hmm; exact hmm.symm)
    · rw [jsGet_jsSet_ne board i b _ hi hib] at hb
      by_cases hic : i = c
      · subst hic
        rw [jsGet_jsSet_self board i _ hi] at hc
        exact Or.inl (by injection hc with hmm; exact hmm.symm)
      · rw [jsGet_jsSet_ne board i c _ hi hic] at hc
        exact Or.inr (by simp [lineAll, ha, hb, hc])

/-- On a board with no completed line, the win test the code performs
(`checkWinner(testBoard) === m`) coincides with the specification's
"placing `m` produces a completed line for `m`". -/
theorem winCond_iff (board : List Cell) (m : Mark) (i : Nat)
    (h9 : board.length = 9) (hi : i < 9)
    (hnw : App.checkWinner board = none) :
    App.checkWinner (jsSet board i (Cell.markC m)) = some m ↔
      specLines.any (lineAll (jsSet board i (Cell.markC m)) m) = true := by
  constructor
  · intro h
    exact checkWinnerLoop_some_lineAll (jsSet board i (Cell.markC m)) m App.lines h
  · intro h
    refine checkWinnerLoop_some_of (jsSet board i (Cell.markC m)) m App.lines h ?_
    intro l hl m2 hline
    rcases lineAll_of_set board i m m2 l (by omega) hline with hm | hline2
    · exact hm
    · have hfalse := checkWinnerLoop_none_lineAll board App.lines hnw l hl m2
      rw [hline2] at hfalse
      exact absurd hfalse (by simp)

/-- On a board with no completed line, the code's win/block scan equals the
specification's scan, index list pointwise below 9. -/
theorem winLoop_eq_specScan (board : List Cell) (m : Mark)
    (h9 : board.length = 9) (hnw : App.checkWinner board = none) :
    ∀ ls, (∀ j ∈ ls, j < 9) →
      App.winLoop board m ls = specScan board m ls
  | [] => fun _ => rfl
  | i :: rest => by
    intro hlt
    have hi : i < 9 := hlt i (List.mem_cons_self _ _)
    have hrest := winLoop_eq_specScan board m h9 hnw rest
      (fun j hj => hlt j (List.mem_cons_of_mem _ hj))
    unfold App.winLoop specScan
    by_cases ht : truthy (jsGet board i) = false
    · rw [if_pos ht]
      by_cases hc : App.checkWinner (jsSet board i (Cell.markC m)) = some m
      · rw [if_pos hc,
            if_pos (by simp [ht, (winCond_iff board m i h9 hi hnw).mp hc])]
      · have hcf : specLines.any (lineAll (jsSet board i (Cell.markC m)) m) = false := by
          rcases Bool.eq_false_or_eq_true
              (specLines.any (lineAll (jsSet board i (Cell.markC m)) m)) with hf | hf
          · exact absurd ((winCond_iff board m i h9 hi hnw).mpr hf) hc
          · exact hf
        rw [if_neg hc, if_neg (by simp [hcf]), hrest]
    · rw [if_neg ht, if_neg (by simp [ht]), hrest]

/-- The corner/any scans of the code and of the specification are the same
first-empty scan. -/
theorem emptyLoop_eq_specFirstEmpty (board : List Cell) :
    ∀ ls, App.emptyLoop board ls = specFirstEmpty board ls
  | [] => rfl
  | i :: rest => by
    unfold App.emptyLoop specFirstEmpty
    rw [emptyLoop_eq_specFirstEmpty board rest]

/-- A win/block scan only ever returns a falsy (unoccupied) cell. -/
theorem winLoop_some_falsy (board : List Cell) (m : Mark) :
    ∀ ls j, App.winLoop board m ls = some j → truthy (jsGet board j) = false
  | [] => by simp [App.winLoop]
  | i :: rest => by
    intro j h
    unfold App.winLoop at h
    split at h
    · rename_i ht
      split at h
      · have hij : i = j := by simpa using h
        subst hij
        exact ht
      · exact winLoop_some_falsy board m rest j h
    · exact winLoop_some_falsy board m rest j h

/-- A first-empty scan only ever returns a falsy (unoccupied) cell. -/
theorem emptyLoop_some_falsy (board : List Cell) :
    ∀ ls j, App.emptyLoop board ls = some j → truthy (jsGet board j) = false
  | [] => by simp [App.emptyLoop]
  | i :: rest => by
    intro j h
    unfold App.emptyLoop at h
    split at h
    · rename_i ht
      have hij : i = j := by simpa using h
      subst hij
      exact ht
    · exact emptyLoop_some_falsy board rest j h

/-- The first-empty scan returns none exactly when every scanned cell is
occupied. -/
theorem emptyLoop_none_iff (board : List Cell) :
    ∀ ls, App.emptyLoop board ls = none ↔
      ∀ j ∈ ls, truthy (jsGet board j) = true
  | [] => by simp [App.emptyLoop]
  | i :: rest => by
    unfold App.emptyLoop
    split
    · rename_i ht
      constructor
      · intro h
        exact absurd h (by simp)
      · intro h
        rw [h i (List.mem_cons_self _ _)] at ht
        exact absurd ht (by simp)
    · rename_i ht
      rw [emptyLoop_none_iff board rest]
      constructor
      · intro h j hj
        rcases List.mem_cons.mp hj with hj | hj
        · subst hj
          exact Bool.eq_true_of_not_eq_false ht
        · exact h j hj
      · intro h j hj
        exact h j (List.mem_cons_of_mem _ hj)

/-- The win/block scan returns none on a fully occupied scan list. -/
theorem winLoop_none_of_full (board : List Cell) (m : Mark) :
    ∀ ls, (∀ j ∈ ls, truthy (jsGet board j) = true) →
      App.winLoop board m ls = none
  | [] => fun _ => rfl
  | i :: rest => by
    intro h
    unfold App.winLoop
    rw [if_neg (by simp [h i (List.mem_cons_self _ _)])]
    exact winLoop_none_of_full board m rest
      (fun j hj => h j (List.mem_cons_of_mem _ hj))

/-- For a 9-cell board, "every cell holds a mark" is the same as "every
index of the scanned range reads a truthy cell". -/
theorem all_truthy_iff_range9 (board : List Cell) (h9 : board.length = 9) :
    board.all truthy = true ↔
      ∀ j ∈ App.range9, truthy (jsGet board j) = true := by
  rw [List.all_eq_true]
  constructor
  · intro h j hj
    have hj9 : j < 9 := by
      simp [App.range9] at hj
      omega
    have hjl : j < board.length := by omega
    have hg : jsGet board j = board.get ⟨j, hjl⟩ := by
      simp [jsGet, List.getElem?_eq_getElem hjl]
    rw [hg]
    exact h _ (board.get_mem _ _)
  · intro h x hx
    obtain ⟨⟨j, hjl⟩, hget⟩ := List.mem_iff_get.mp hx
    have hj9 : j ∈ App.range9 := by
      simp [App.range9]
      omega
    rw [List.get_eq_getElem] at hget
    have hg : jsGet board j = x := by
      simp [jsGet, List.getElem?_eq_getElem hjl, hget]
    rw [← hg]
    exact h j hj9

/-- C3 counterexample: when the board already holds a completed line for X,
the code's first loop tests `checkWinner(testBoard) === 'O'`, which reports
X (the earlier line) instead of O, so the win-now rule never fires and the
block loop returns the lowest empty index 3; the reference priority
function plays O's winning cell 8. -/
theorem c3_policy_counterexample :
    c3CexBoard.length = 9 ∧
    App.getAlbertMove c3CexBoard = 3 ∧
    specChooseMove c3CexBoard Mark.O Mark.X = 8 ∧
    App.getAlbertMove c3CexBoard ≠ specChooseMove c3CexBoard Mark.O Mark.X := by
  decide

/-- C3 (amended): on any 9-cell board that has no completed line yet,
`getAlbertMove` equals the reference priority function of the
specification; moreover, on any 9-cell board it returns -1 exactly when no
cell is empty and it never returns an occupied cell. -/
theorem c3_policy_refines_spec (board : List Cell) (h9 : board.length = 9) :
    (App.checkWinner board = none →
      App.getAlbertMove board = specChooseMove board Mark.O Mark.X) ∧
    (App.getAlbertMove board = -1 ↔ board.all truthy = true) ∧
    (∀ i : Nat, App.getAlbertMove board = (i : Int) →
      truthy (jsGet board i) = false) := by
  refine ⟨?_, ⟨?_, ?_⟩, ?_⟩
  · intro hnw
    unfold App.getAlbertMove specChooseMove
    rw [winLoop_eq_specScan board Mark.O h9 hnw App.range9 (by decide),
        winLoop_eq_specScan board Mark.X h9 hnw App.range9 (by decide),
        emptyLoop_eq_specFirstEmpty board App.corners,
        emptyLoop_eq_specFirstEmpty board App.range9]
  · intro h
    unfold App.getAlbertMove at h
    split at h
    · exact absurd h (by omega)
    · split at h
      · exact absurd h (by omega)
      · split at h
        · exact absurd h (by omega)
        · split at h
          · exact absurd h (by omega)
          · split at h
            · exact absurd h (by omega)
            · rename_i he
              exact (all_truthy_iff_range9 board h9).mpr
                ((emptyLoop_none_iff board App.range9).mp he)
  · intro hall
    have hfull : ∀ j ∈ App.range9, truthy (jsGet board j) = true :=
      (all_truthy_iff_range9 board h9).mp hall
    have h4 : truthy (jsGet board 4) = true := hfull 4 (by decide)
    have hco : App.emptyLoop board App.corners = none := by
      rw [emptyLoop_none_iff]
      intro j hj
      refine hfull j ?_
      fin_cases hj <;> decide
    unfold App.getAlbertMove
    rw [winLoop_none_of_full board Mark.O App.range9 hfull,
        winLoop_none_of_full board Mark.X App.range9 hfull,
        hco, (emptyLoop_none_iff board App.range9).mpr hfull]
    simp [h4]
  · intro i h
    unfold App.getAlbertMove at h
    split at h
    · rename_i j hwo
      have hij : j = i := by omega
      subst hij
      exact winLoop_some_falsy board Mark.O App.range9 j hwo
    · split at h
      · rename_i j hwx
        have hij : j = i := by omega
        subst hij
        exact winLoop_some_falsy board Mark.X App.range9 j hwx
      · split at h
        · rename_i h4
          have hi4 : i = 4 := by omega
          subst hi4
          exact h4
        · split at h
          · rename_i j hcm
            have hij : j = i := by omega
            subst hij
            exact emptyLoop_some_falsy board App.corners j hcm
          · split at h
            · rename_i j he
              have hij : j = i := by omega
              subst hij
              exact emptyLoop_some_falsy board App.range9 j he
            · exact absurd h (by omega)

/-- C3 witness: the empty board has 9 cells and no completed line; there
the policy and the reference function agree (both play the center). -/
theorem c3_policy_refines_spec_witness :
    (List.replicate 9 Cell.nullC).length = 9 ∧
    App.checkWinner (List.replicate 9 Cell.nullC) = none ∧
    App.getAlbertMove (List.replicate 9 Cell.nullC) =
      specChooseMove (List.replicate 9 Cell.nullC) Mark.O Mark.X :=
  ⟨by decide, by decide,
    (c3_policy_refines_spec (List.replicate 9 Cell.nullC) (by decide)).1
      (by decide)⟩

/-! Move-coordination layer: App.tsx drives Albert's move through
`handleGameMove` (which schedules a `setTimeout` capturing the board it was
given), the timeout callback (which stores `getAlbertMove`'s choice in the
`albertNextMove` state), and the component's `useEffect` (which applies
`albertMove` when it is O's turn and the game is not over). There is no
`clearTimeout` and `setAlbertNextMove(undefined)` is called only in
`handleGameEnd`, so the model below lets the scheduled task and the stored
move survive a reset, exactly as the source does. Steps are applied in an
explicit order, modelling one concrete interleaving of timer firings and
renders. -/

/-- Combined state of host and component: the game state, the host's
`albertNextMove`, and the boards captured by outstanding `setTimeout`
callbacks, oldest first. -/
structure SysState : Type where
  gs : GameState
  albertNext : Option Int
  timers : List (List Cell)
deriving DecidableEq, Repr

/-- `handleGameMove` of App.tsx, as its effect on the pending-timer list:
when the emitted state has O to move and the game not over, a timeout is
scheduled whose callback closes over the emitted board. -/
def handleGameMove (st : SysState) (emitted : GameState) : SysState :=
  if emitted.currentPlayer = Mark.O ∧ emitted.gameOver = false then
    { st with timers := st.timers ++ [emitted.board] }
  else st

/-- One `makeMove` invocation together with the callbacks the component
fires: `onGameEnd` (which clears `albertNextMove` in `handleGameEnd`) when
the move ends the game, and `onMove` (whose `handleGameMove` may schedule a
timeout). A no-op move returns early and fires no callback. -/
def clickCell (st : SysState) (i : Nat) : SysState :=
  if truthy (jsGet st.gs.board i) || st.gs.gameOver then st
  else
    let gs2 := TicTacToe.makeMove st.gs i
    let an := if gs2.gameOver then none else st.albertNext
    handleGameMove { gs := gs2, albertNext := an, timers := st.timers } gs2

/-- The "New Game" button: `resetGame` plus its `onMove` notification.
Nothing cancels the pending timers and nothing clears `albertNextMove` —
the source has no `clearTimeout` at all. -/
def clickNewGame (st : SysState) : SysState :=
  let gs2 := TicTacToe.resetGame st.gs
  handleGameMove { gs := gs2, albertNext := st.albertNext, timers := st.timers } gs2

/-- The component's `useEffect`: when `albertMove` is set, it is O's turn
and the game is not over, the stored move is applied via `makeMove`. The
stored values are the non-(-1) results of `getAlbertMove`, hence 0..8. -/
def albertEffect (st : SysState) : SysState :=
  match st.albertNext with
  | some mv =>
    if st.gs.currentPlayer = Mark.O ∧ st.gs.gameOver = false then
      clickCell st mv.toNat
    else st
  | none => st

/-- The oldest pending timeout fires: `getAlbertMove` runs on the board the
callback captured, the result (if not -1) is stored in `albertNextMove`,
and the re-render runs the component's effect. -/
def fireTimer (st : SysState) : SysState :=
  match st.timers with
  | [] => st
  | captured :: rest =>
    let mv := App.getAlbertMove captured
    albertEffect
      { st with
        timers := rest
        albertNext := if mv ≠ -1 then some mv else st.albertNext }

/-- The system at mount: initial game state, no stored move, no timer. -/
def initialSysState : SysState :=
  { gs := TicTacToe.initialGameState, albertNext := none, timers := [] }

/-- C9: the cancellation the specification requires does not exist in the
code. After the human plays the center and presses "New Game" before the
one-second timeout fires, the scheduled task is still pending (first
conjunct) with the pre-reset board it captured; when it fires it chooses a
corner because the center is occupied on that stale board and stores it
(second conjunct); after the human plays the center of the fresh board, the
effect applies the stale move, an O landing at cell 0 of the post-reset
board (third conjunct). -/
theorem c9_stale_timer_not_cancelled :
    (clickNewGame (clickCell initialSysState 4)).timers =
      [[Cell.nullC, Cell.nullC, Cell.nullC, Cell.nullC, Cell.markC Mark.X,
        Cell.nullC, Cell.nullC, Cell.nullC, Cell.nullC]] ∧
    (fireTimer (clickNewGame (clickCell initialSysState 4))).albertNext =
      some 0 ∧
    jsGet (albertEffect (clickCell
      (fireTimer (clickNewGame (clickCell initialSysState 4))) 4)).gs.board 0 =
      Cell.markC Mark.O := by
  decide
